import Mathlib

/-!
Verification of the shopping-list ingredient-consolidation subsystem of the
recipe-wizard backend (`backend/app/services/shopping_list_service.py` and the
data model in `backend/app/models/shopping_list.py`).

Modelling conventions.

Strings: Python `str` is modelled by Lean `String`.  `str.split()` (split on
runs of whitespace, dropping empty pieces) is `pySplitWs`; `str.split(sep)` is
`pySplitChar`; `str.strip()` is `pyStrip`; `str.rstrip(c)` is `pyRstripChar`;
`word in text` (substring test) is `strIn`; `str.lower()` is `strLower`.

Numbers: Python floats are IEEE-754 binary64 values and are modelled as such.
`FloatVal` is either `finite v` with `v : PyNum` the exact rational value of
the double (a pair of integer numerator and positive, not necessarily reduced,
integer denominator — every finite double is a rational, and every observation
made of `v` is value-level), or one of the non-finite values `posInf`,
`negInf`, `nan`.  `roundD` rounds an exact rational to the nearest double
(round half to even at 53 significant bits, subnormals at absolute values
below 2^(-1022), overflow to the infinities), which is the rounding both of
CPython's correctly rounded `float(string)` conversion and of IEEE addition
and division of exact operands; `addD` and `divD` round their exact result
and implement the special-value rules.  Signed zeros are collapsed to the
single zero: a negative zero can reach the accumulator only as an addend or a
quotient, where it is indistinguishable from positive zero in every
observation the service makes (equality with 0, summation, rendering).
`parseFloat` models `float(tok)` on ASCII strings: optional surrounding
whitespace and sign, `inf`/`infinity`/`nan` case-insensitively, and decimal
literals with optional fractional part, optional exponent and single
underscores between digits.  Non-ASCII input (Unicode decimal digits, which
`float` also accepts, and Unicode whitespace, on which `str.split` also
splits) is outside the modelled domain; the universal theorems whose truth
depends on the tokenizer or parser therefore carry an explicit
ASCII-characters hypothesis.

Database and ORM session: the SQLAlchemy session is created with
`autoflush=False` (`backend/app/database.py`, `sessionmaker(autocommit=False,
autoflush=False, ...)`).  Consequences modelled faithfully:
 1. `session.add(obj)` leaves `obj` pending; queries (including lazy loads of
    relationship collections) do not see it until an explicit `flush()` or the
    final `commit()`.
 2. `session.delete(obj)` is pending until flush; queries and lazy-loaded
    collections still return the object.
 3. `ShoppingListRecipeBreakdown(...)` rows are constructed with the raw
    foreign key `shopping_item_id=...`, not via the relationship attribute, so
    the in-memory `item.recipe_breakdowns` collection is never updated by
    construction; it reflects only what a lazy-load query returned.
 4. A relationship collection, once lazy-loaded, is cached on the object for
    the rest of the session.
The only mid-call flush in the service is the explicit `self.db.flush()` in
`_create_new_shopping_item`.  Each service call runs in its own session and
ends with `commit()`, after which all pending rows and attribute updates are
in the database.  The database is modelled as lists of rows in insertion
order; unordered queries return rows in that order.
-/

/-- Whether the character list `n` is an initial segment of `h`. -/
def leadsWith : List Char → List Char → Bool
  | [], _ => true
  | _ :: _, [] => false
  | a :: as, b :: bs => a == b && leadsWith as bs

/-- Whether the character list `n` occurs contiguously inside `h`
(Python `n in h` on strings). -/
def occursIn (n : List Char) : List Char → Bool
  | [] => leadsWith n []
  | c :: cs => leadsWith n (c :: cs) || occursIn n cs

/-- Python `needle in hay` substring containment. -/
def strIn (needle hay : String) : Bool :=
  occursIn needle.data hay.data

/-- Python `s.lower()` on the basic latin letters the service compares. -/
def strLower (s : String) : String :=
  String.mk (s.data.map Char.toLower)

/-- The ASCII characters Python's `str.isspace` (and hence `str.split()`,
`str.strip()` and `float()`'s surrounding-whitespace rule) treats as
whitespace: tab through carriage return, the file/group/record/unit
separators, and space. -/
def pyIsSpace (c : Char) : Bool :=
  c == ' ' || c == '\t' || c == '\n' || c == '\x0b' || c == '\x0c' || c == '\r' ||
  c == '\x1c' || c == '\x1d' || c == '\x1e' || c == '\x1f'

/-- Accumulating worker for `pySplitWs`: the first list is the remaining
input, the second the reversed characters of the word in progress. -/
def splitWsAux : List Char → List Char → List String
  | [], acc => if acc.isEmpty then [] else [String.mk acc.reverse]
  | c :: cs, acc =>
    if pyIsSpace c then
      if acc.isEmpty then splitWsAux cs [] else String.mk acc.reverse :: splitWsAux cs []
    else splitWsAux cs (c :: acc)

/-- Python `s.split()`: split on runs of whitespace, dropping empty pieces. -/
def pySplitWs (s : String) : List String :=
  splitWsAux s.data []

/-- Accumulating worker for `pySplitChar`. -/
def splitCharAux (sep : Char) : List Char → List Char → List String
  | [], acc => [String.mk acc.reverse]
  | c :: cs, acc =>
    if c == sep then String.mk acc.reverse :: splitCharAux sep cs []
    else splitCharAux sep cs (c :: acc)

/-- Python `s.split(sep)` for a one-character separator, keeping empty
pieces. -/
def pySplitChar (s : String) (sep : Char) : List String :=
  splitCharAux sep s.data []

/-- Python `s.strip()`: remove leading and trailing whitespace. -/
def pyStrip (s : String) : String :=
  String.mk (((s.data.dropWhile pyIsSpace).reverse.dropWhile pyIsSpace).reverse)

/-- Python `s.rstrip(c)` for a single character `c`. -/
def pyRstripChar (s : String) (c : Char) : String :=
  String.mk ((s.data.reverse.dropWhile (fun d => d == c)).reverse)

/-- Numeric value of a list of decimal digit characters, most significant first. -/
def natOfDigits (ds : List Char) : ℕ :=
  ds.foldl (fun a c => 10 * a + (c.toNat - '0'.toNat)) 0

/-- An exact rational value: numerator and denominator, the denominator kept
positive by every operation below; the fraction is not necessarily reduced,
and every observation made of it is value-level.  Used both for the exact
value of a finite double and for the exact intermediate results that `roundD`
then rounds to a double. -/
structure PyNum where
  num : ℤ
  den : ℤ
deriving DecidableEq

/-- The float value zero (`total_numeric = 0`). -/
def pnZero : PyNum := ⟨0, 1⟩

/-- Exact rational addition: the intermediate the hardware rounds when adding
two doubles. -/
def pnAdd (a b : PyNum) : PyNum :=
  ⟨a.num * b.den + b.num * a.den, a.den * b.den⟩

/-- Exact rational division, keeping the denominator positive: the
intermediate the hardware rounds when dividing two doubles.  The caller
guards against a zero divisor. -/
def pnDiv (a b : PyNum) : PyNum :=
  if b.num < 0 then ⟨-(a.num * b.den), a.den * (-b.num)⟩
  else ⟨a.num * b.den, a.den * b.num⟩

/-- Python `total == int(total)`: whether the value is a whole number. -/
def pnWhole (t : PyNum) : Bool :=
  t.num % t.den == 0

/-- Python `int(total)`: truncation toward zero (used on whole values). -/
def pnTrunc (t : PyNum) : ℤ :=
  t.num.tdiv t.den

/-- Round the fraction `a / d` (with `d` positive) to the nearest integer,
ties to even: the tie rule of IEEE-754 rounding and of Python's `:.2f`
formatting. -/
def roundHalfEven (a d : ℤ) : ℤ :=
  let f := a.fdiv d
  let r2 := 2 * (a - f * d)
  if r2 < d then f
  else if d < r2 then f + 1
  else if f % 2 = 0 then f else f + 1

/-- An IEEE-754 binary64 value: a finite double carried as its exact rational
value, or one of the non-finite values.  Signed zeros are collapsed (see the
header). -/
inductive FloatVal where
  | finite (v : PyNum)
  | posInf
  | negInf
  | nan
deriving DecidableEq

/-- Whether a double is finite. -/
def floatIsFinite : FloatVal → Bool
  | .finite _ => true
  | _ => false

/-- Python `x == 0` on a double (the `ZeroDivisionError` test). -/
def floatIsZero : FloatVal → Bool
  | .finite v => v.num == 0
  | _ => false

/-- Largest `c` with `m * 2 ^ c ≤ a`, by fuelled doubling; called with the
invariant `m ≤ a`. -/
def findCUp : ℕ → ℤ → ℤ → ℤ → ℤ
  | 0, _, _, c => c
  | fuel + 1, a, m, c => if 2 * m ≤ a then findCUp fuel a (2 * m) (c + 1) else c

/-- Floor base-2 logarithm of `m / d` for `0 < m < d`, by fuelled doubling;
called with `c = 0`. -/
def findCDown : ℕ → ℤ → ℤ → ℤ → ℤ
  | 0, _, _, c => c
  | fuel + 1, m, d, c => if d ≤ 2 * m then c - 1 else findCDown fuel (2 * m) d (c - 1)

/-- Round the positive rational `a / d` to the nearest double magnitude:
round half to even on the grid of spacing `2 ^ q`, where `q` gives 53
significant bits for normal values and is clamped at `2 ^ (-1074)` in the
subnormal range; magnitudes reaching `2 ^ 1024` overflow to infinity.  The
fuel bounds the logarithm search and is chosen ample by every caller. -/
def roundDPos (fuel : ℕ) (a d : ℤ) : FloatVal :=
  let c := if d ≤ a then findCUp fuel a d 0 else findCDown fuel a d 0
  let q : ℤ := if c - 52 < -1074 then -1074 else c - 52
  let scaledNum := a * 2 ^ (if q < 0 then (-q).toNat else 0)
  let scaledDen := d * 2 ^ (if 0 < q then q.toNat else 0)
  let m := roundHalfEven scaledNum scaledDen
  if m = 0 then .finite pnZero
  else if 0 ≤ q then
    if 2 ^ 1024 ≤ m * 2 ^ q.toNat then .posInf else .finite ⟨m * 2 ^ q.toNat, 1⟩
  else .finite ⟨m, 2 ^ (-q).toNat⟩

/-- Round an exact rational to the nearest double (round half to even),
handling sign, underflow to zero and overflow to the infinities. -/
def roundD (fuel : ℕ) (x : PyNum) : FloatVal :=
  if x.num = 0 then .finite pnZero
  else if x.num < 0 then
    match roundDPos fuel (-x.num) x.den with
    | .finite v => .finite ⟨-v.num, v.den⟩
    | .posInf => .negInf
    | fv => fv
  else roundDPos fuel x.num x.den

/-- IEEE addition of two doubles: exact sum rounded to the nearest double,
with the special-value rules (`nan` absorbs; opposite infinities give `nan`).
Sums of finite doubles keep the exponent range that fuel 4000 covers. -/
def addD : FloatVal → FloatVal → FloatVal
  | .finite a, .finite b => roundD 4000 (pnAdd a b)
  | .nan, _ => .nan
  | _, .nan => .nan
  | .posInf, .negInf => .nan
  | .negInf, .posInf => .nan
  | .posInf, _ => .posInf
  | _, .posInf => .posInf
  | .negInf, _ => .negInf
  | _, .negInf => .negInf

/-- IEEE division of two doubles (the caller has excluded a zero divisor):
exact quotient rounded to the nearest double, with the special-value rules
(`nan` absorbs; infinity over infinity is `nan`; a finite value over an
infinity is zero; an infinity over a finite value keeps the combined sign). -/
def divD : FloatVal → FloatVal → FloatVal
  | .finite a, .finite b => roundD 4000 (pnDiv a b)
  | .nan, _ => .nan
  | _, .nan => .nan
  | .posInf, .posInf => .nan
  | .posInf, .negInf => .nan
  | .negInf, .posInf => .nan
  | .negInf, .negInf => .nan
  | .posInf, .finite b => if b.num < 0 then .negInf else .posInf
  | .negInf, .finite b => if b.num < 0 then .posInf else .negInf
  | .finite _, .posInf => .finite pnZero
  | .finite _, .negInf => .finite pnZero

/-- Worker for `digitRun`, entered after an initial digit: consumes further
digits, allowing a single underscore only between two digits (PEP 515, the
rule `float()` applies); returns the digits with underscores removed and the
unconsumed remainder, or `none` when an underscore is misplaced. -/
def digitRunAux : List Char → Option (List Char × List Char)
  | [] => some ([], [])
  | c :: cs =>
    if c.isDigit then (digitRunAux cs).map (fun p => (c :: p.1, p.2))
    else if c == '_' then
      match cs with
      | d :: ds =>
        if d.isDigit then (digitRunAux ds).map (fun p => (d :: p.1, p.2)) else none
      | [] => none
    else some ([], c :: cs)

/-- A possibly empty run of ASCII digits with single underscores between
digits; `none` when an underscore is misplaced within the run. -/
def digitRun : List Char → Option (List Char × List Char)
  | [] => some ([], [])
  | c :: cs =>
    if c.isDigit then (digitRunAux cs).map (fun p => (c :: p.1, p.2))
    else some ([], c :: cs)

/-- An optional leading sign. -/
def splitSign : List Char → ℤ × List Char
  | '-' :: r => (-1, r)
  | '+' :: r => (1, r)
  | r => (1, r)

/-- The double nearest to `sgn * digits * 10 ^ e10`: exact conversion of a
decimal literal followed by `roundD`, which is CPython's correctly rounded
`float(string)`.  Exponents far outside the double range are settled without
building the power: past `10 ^ 330` the value overflows to infinity, and
below every significant digit's reach of `10 ^ (-360)` it underflows to
zero. -/
def decToFloat (sgn : ℤ) (digits : List Char) (e10 : ℤ) : FloatVal :=
  let n : ℤ := natOfDigits digits
  if n = 0 then .finite pnZero
  else if 330 < e10 then (if sgn < 0 then .negInf else .posInf)
  else if e10 < -(360 + (digits.length : ℤ)) then .finite pnZero
  else
    let fuel := 8 * digits.length + 1500
    if 0 ≤ e10 then roundD fuel ⟨sgn * n * 10 ^ e10.toNat, 1⟩
    else roundD fuel ⟨sgn * n, 10 ^ (-e10).toNat⟩

/-- The optional-exponent tail of a decimal `float()` literal: given the sign,
the integer-part and fractional-part digits and the unconsumed remainder,
require at least one digit, then either the end of the string or a complete
exponent part. -/
def parseFloatExp (sgn : ℤ) (ip fp rest : List Char) : Option FloatVal :=
  if ip.isEmpty && fp.isEmpty then none
  else
    match rest with
    | [] => some (decToFloat sgn (ip ++ fp) (-(fp.length : ℤ)))
    | e :: r =>
      if e == 'e' || e == 'E' then
        let es := splitSign r
        match digitRun es.2 with
        | some ed =>
          if ed.1.isEmpty || !ed.2.isEmpty then none
          else some (decToFloat sgn (ip ++ fp) (es.1 * natOfDigits ed.1 - (fp.length : ℤ)))
        | none => none
      else none

/-- Model of Python `float(tok)` on ASCII strings: strip surrounding
whitespace, take an optional sign, accept `inf`, `infinity` and `nan`
case-insensitively, else a decimal literal `digits [. digits] [e sign digits]`
with at least one digit and single underscores between digits; everything
else raises `ValueError`, modelled as `none`.  Non-ASCII decimal digits,
which `float` also accepts, are outside the modelled domain (see the
header). -/
def parseFloat (s : String) : Option FloatVal :=
  let stripped := ((s.data.dropWhile pyIsSpace).reverse.dropWhile pyIsSpace).reverse
  let sgncs := splitSign stripped
  let low := sgncs.2.map Char.toLower
  if low == "inf".data || low == "infinity".data then
    some (if sgncs.1 < 0 then .negInf else .posInf)
  else if low == "nan".data then some .nan
  else
    match digitRun sgncs.2 with
    | none => none
    | some ip =>
      match ip.2 with
      | '.' :: r2 =>
        match digitRun r2 with
        | none => none
        | some fp => parseFloatExp sgncs.1 ip.1 fp.1 fp.2
      | r1 => parseFloatExp sgncs.1 ip.1 [] r1

/-- The leading-token parser of `_calculate_consolidated_display`: if the
token contains a slash it must be a two-part fraction `a/b`; a `float(b)`
equal to zero raises `ZeroDivisionError`, which the source catches like
`ValueError` (both abort numeric summation, modelled as `none`); otherwise
the token is parsed as a float.  A parsed non-finite value is not an error:
it enters the summation as the program's would. -/
def parseNumTok (tok : String) : Option FloatVal :=
  if tok.data.contains '/' then
    match pySplitChar tok '/' with
    | [a, b] =>
      match parseFloat a, parseFloat b with
      | some x, some y => if floatIsZero y then none else some (divD x y)
      | _, _ => none
    | _ => none
  else parseFloat tok

/-- The descriptive-term list used by `_calculate_consolidated_display`
(line 186 of the service).  Note: it omits the term `squeeze` that
`_format_ingredient_display` (line 160) includes. -/
def descWordsCalc : List String := ["pinch", "to taste", "handful", "dash", "splash"]

/-- The descriptive-term list used by `_format_ingredient_display`. -/
def descWordsFmt : List String := ["pinch", "to taste", "handful", "dash", "splash", "squeeze"]

/-- A breakdown quantity is excluded from numeric summation when it is empty
(Python falsy) or contains one of the calculator's descriptive terms,
case-insensitively. -/
def excludedCalc (q : String) : Bool :=
  q == "" || descWordsCalc.any (fun w => strIn w (strLower q))

/-- Loop state of the summation loop in `_calculate_consolidated_display`:
the running float total, the `has_numeric` flag and the common unit
(`None` before the first candidate is seen). -/
structure CState where
  total : FloatVal
  hasNum : Bool
  commonUnit : Option String
deriving DecidableEq

/-- One numeric-token parse inside the loop: `total_numeric += num` (a double
addition) on success, `has_numeric = False` on a caught exception. -/
def consolNum (st : CState) (tok : String) : CState :=
  match parseNumTok tok with
  | some v => { st with total := addD st.total v }
  | none => { st with hasNum := false }

/-- One iteration of the summation loop of `_calculate_consolidated_display`
on the quantity string `q`. -/
def consolStep (st : CState) (q : String) : CState :=
  if excludedCalc q then { st with hasNum := false }
  else
    match pySplitWs q with
    | [] => st
    | numTok :: rest =>
      let unitPart := String.intercalate " " rest
      match st.commonUnit with
      | none => consolNum { st with commonUnit := some unitPart } numTok
      | some u => if u == unitPart then consolNum st numTok else { st with hasNum := false }

/-- Python string interpolation of the common unit: `f"... {common_unit}"`
renders `None` as the literal text `None`. -/
def unitString : Option String → String
  | some u => u
  | none => "None"

/-- Model of Python `f"{t:.2f}"` on the exact value `t` of a finite double:
fixed-point formatting rounds the exact binary value half to even at two
decimal places. -/
def formatTwoDec (t : PyNum) : String :=
  let n := roundHalfEven (100 * t.num) t.den
  let a := n.natAbs
  (if n < 0 then "-" else "") ++ toString (a / 100) ++ "." ++
    (if a % 100 < 10 then "0" else "") ++ toString (a % 100)

/-- The output step of `_calculate_consolidated_display` after the loop:
show the consolidated total when `has_numeric` survived and more than one
breakdown exists, otherwise join all quantity strings with a plus sign. -/
def consolFinish (qs : List String) (st : CState) : String :=
  if st.hasNum = true ∧ 1 < qs.length then
    match st.total with
    | .finite v =>
      if pnWhole v then
        pyStrip (toString (pnTrunc v) ++ " " ++ unitString st.commonUnit)
      else
        pyRstripChar (pyRstripChar (pyStrip (formatTwoDec v ++ " " ++ unitString st.commonUnit)) '0') '.'
    | _ => ""
  else String.intercalate " + " qs

/-- The consolidation calculator `_calculate_consolidated_display`, as a
function of the quantity strings of the item's loaded breakdown collection, in
collection order.  When the summation survives with a non-finite total the
source raises uncaught at `int(total_numeric)` (`OverflowError` for the
infinities, `ValueError` for `nan`) instead of returning; the model yields the
empty string there and `consolidationRaises` marks the region, which no
theorem below enters. -/
def calculateConsolidatedDisplay (qs : List String) : String :=
  if qs.length = 1 then qs.headD ""
  else consolFinish qs (qs.foldl consolStep ⟨.finite pnZero, true, none⟩)

/-- The region where `_calculate_consolidated_display` raises instead of
returning: numeric summation survived over more than one breakdown but the
accumulated double is non-finite, so `int(total_numeric)` raises. -/
def consolidationRaises (qs : List String) : Bool :=
  let st := qs.foldl consolStep ⟨.finite pnZero, true, none⟩
  st.hasNum && decide (1 < qs.length) && !floatIsFinite st.total

/-- The formatter `_format_ingredient_display`: with an absent, empty or
`N/A` unit the amount is returned unchanged on both branches of the
descriptive-term test; otherwise the amount and unit are joined and stripped. -/
def formatIngredientDisplay (amount : String) (unit : Option String) : String :=
  let unitFalsy : Bool :=
    match unit with
    | none => true
    | some u => u == ""
  if unitFalsy || strLower (unit.getD "") == "n/a" then
    if descWordsFmt.any (fun w => strIn w (strLower amount)) then amount else amount
  else pyStrip (amount ++ " " ++ unit.getD "")

/-- The raw quantity stored by `_add_to_existing_item` (line 116):
the f-string `f"{ingredient.amount} {ingredient.unit or ''}".strip()`, which
does not route through `_format_ingredient_display`. -/
def rawQuantityDisplay (amount : String) (unit : Option String) : String :=
  pyStrip (amount ++ " " ++ unit.getD "")

/-- A `recipe_ingredients` row (read-only input from the recipe subsystem). -/
structure IngredientRow where
  id : ℕ
  name : String
  amount : String
  unit : Option String
  category : String
deriving DecidableEq

/-- A `recipes` row with its ingredient list in stored order. -/
structure RecipeRow where
  id : ℕ
  title : String
  ingredients : List IngredientRow
deriving DecidableEq

/-- A `shopping_lists` row. -/
structure ShoppingListRow where
  id : ℕ
  user_id : ℕ
  name : String
  is_active : Bool
deriving DecidableEq

/-- A `shopping_list_items` row. -/
structure ItemRow where
  id : ℕ
  shopping_list_id : ℕ
  ingredient_name : String
  category : String
  consolidated_display : String
  is_checked : Bool
deriving DecidableEq

/-- A `shopping_list_recipe_breakdowns` row. -/
structure BreakdownRow where
  id : ℕ
  shopping_item_id : ℕ
  recipe_id : ℕ
  original_ingredient_id : ℕ
  recipe_title : String
  quantity : String
deriving DecidableEq

/-- A `shopping_list_recipe_associations` row. -/
structure AssocRow where
  id : ℕ
  shopping_list_id : ℕ
  recipe_id : ℕ
deriving DecidableEq

/-- The committed database: rows of each table in insertion order, plus a
fresh-id counter standing for the primary-key sequences. -/
structure DB where
  recipes : List RecipeRow
  lists : List ShoppingListRow
  items : List ItemRow
  breakdowns : List BreakdownRow
  assocs : List AssocRow
  nextId : ℕ
deriving DecidableEq

/-- The quantity strings of an item's breakdown rows in a given row list, in
row order: what a lazy load of `item.recipe_breakdowns` returns. -/
def breakdownsOf (bds : List BreakdownRow) (itemId : ℕ) : List BreakdownRow :=
  bds.filter (fun b => b.shopping_item_id == itemId)

/-- The service's `get_or_create_shopping_list`: the user's first active list,
or a freshly committed one with the default name. -/
def getOrCreateShoppingList (d : DB) (uid : ℕ) : DB × ShoppingListRow :=
  match d.lists.find? (fun l => l.user_id == uid && l.is_active) with
  | some l => (d, l)
  | none =>
    let l : ShoppingListRow := ⟨d.nextId, uid, "My Shopping List", true⟩
    ({ d with lists := d.lists ++ [l], nextId := d.nextId + 1 }, l)

/-- Session state during one `add_recipe_to_shopping_list` call: the flushed
database visible to queries, the pending (not yet flushed) breakdown and
association rows, the per-item cache of lazy-loaded breakdown collections,
and the id counter. -/
structure AddState where
  db : DB
  pendingBds : List BreakdownRow
  pendingAssocs : List AssocRow
  collCache : List (ℕ × List BreakdownRow)
  nextId : ℕ
deriving DecidableEq

/-- Effect of `session.flush()`: all pending rows become visible to queries. -/
def flushPending (st : AddState) : AddState :=
  { st with
    db := { st.db with
            breakdowns := st.db.breakdowns ++ st.pendingBds,
            assocs := st.db.assocs ++ st.pendingAssocs }
    pendingBds := []
    pendingAssocs := [] }

/-- A lazy load of `item.recipe_breakdowns` in the add session: the cached
collection if this item's collection was loaded before, otherwise a query
against the flushed state, which is then cached.  Pending rows are invisible
(`autoflush=False`). -/
def loadCollection (st : AddState) (itemId : ℕ) : List BreakdownRow × AddState :=
  match st.collCache.find? (fun p => p.1 == itemId) with
  | some p => (p.2, st)
  | none =>
    let c := breakdownsOf st.db.breakdowns itemId
    (c, { st with collCache := st.collCache ++ [(itemId, c)] })

/-- Overwrite one item's consolidated display (an in-memory attribute write on
the identity-mapped object, visible to the rest of the call and committed at
the end). -/
def setItemDisplay (d : DB) (itemId : ℕ) (disp : String) : DB :=
  { d with items := d.items.map (fun it =>
      if it.id == itemId then { it with consolidated_display := disp } else it) }

/-- The service's `_add_to_existing_item`: a new breakdown row carrying the raw
f-string quantity is added (pending), then the display is recomputed from the
lazy-loaded collection, which cannot contain the pending new row. -/
def addToExistingItem (st : AddState) (it : ItemRow) (r : RecipeRow) (ing : IngredientRow) :
    AddState :=
  let bd : BreakdownRow :=
    ⟨st.nextId, it.id, r.id, ing.id, r.title, rawQuantityDisplay ing.amount ing.unit⟩
  let st1 := { st with pendingBds := st.pendingBds ++ [bd], nextId := st.nextId + 1 }
  let load := loadCollection st1 it.id
  let disp := calculateConsolidatedDisplay (load.1.map (fun b => b.quantity))
  { load.2 with db := setItemDisplay load.2.db it.id disp }

/-- The service's `_create_new_shopping_item`: the item row is flushed at once
(`self.db.flush()`, which also flushes every pending row), then the first
breakdown row is added pending; both carry the formatted display. -/
def createNewShoppingItem (st : AddState) (sl : ShoppingListRow) (r : RecipeRow)
    (ing : IngredientRow) : AddState :=
  let disp := formatIngredientDisplay ing.amount ing.unit
  let stf := flushPending st
  let it : ItemRow := ⟨stf.nextId, sl.id, ing.name, ing.category, disp, false⟩
  let st1 := { stf with
               db := { stf.db with items := stf.db.items ++ [it] }
               nextId := stf.nextId + 1 }
  let bd : BreakdownRow := ⟨st1.nextId, it.id, r.id, ing.id, r.title, disp⟩
  { st1 with pendingBds := st1.pendingBds ++ [bd], nextId := st1.nextId + 1 }

/-- The service's `_add_ingredient_to_shopping_list`: look up an item of this
list with the same ingredient name and category in the flushed state, then
either add to it or create a new one. -/
def addIngredientToShoppingList (sl : ShoppingListRow) (r : RecipeRow) (st : AddState)
    (ing : IngredientRow) : AddState :=
  match st.db.items.find? (fun it =>
      it.shopping_list_id == sl.id && it.ingredient_name == ing.name &&
      it.category == ing.category) with
  | some it => addToExistingItem st it r ing
  | none => createNewShoppingItem st sl r ing

/-- The service's `add_recipe_to_shopping_list`: resolve the recipe, get or
create the list, record a new association unconditionally, add every
ingredient in stored order, then commit. -/
def addRecipeToShoppingList (d : DB) (uid rid : ℕ) : Except String DB :=
  match d.recipes.find? (fun r => r.id == rid) with
  | none => .error "Recipe not found"
  | some r =>
    let dl := getOrCreateShoppingList d uid
    let a : AssocRow := ⟨dl.1.nextId, dl.2.id, rid⟩
    let st0 : AddState :=
      { db := dl.1, pendingBds := [], pendingAssocs := [a], collCache := [],
        nextId := dl.1.nextId + 1 }
    let st1 := r.ingredients.foldl (addIngredientToShoppingList dl.2 r) st0
    let d2 := (flushPending st1).db
    .ok { d2 with nextId := st1.nextId }

/-- Session effects accumulated by the loop of
`remove_recipe_from_shopping_list`: pending breakdown deletes, pending item
deletes, and the in-memory display writes in program order. -/
structure RemoveFx where
  delBds : List ℕ
  delItems : List ℕ
  dispUpd : List (ℕ × String)
deriving DecidableEq

/-- One iteration of the removal loop, executed against the frozen pre-flush
snapshot `d0`: the breakdown is deleted (pending), the owner's collection is
lazy-loaded from the snapshot (so it still contains every pending-deleted
row), the current row alone is filtered out by id; if nothing else remains the
item is deleted, otherwise its display is recomputed from the full stale
collection. -/
def removeStep (d0 : DB) (fx : RemoveFx) (b : BreakdownRow) : RemoveFx :=
  let fx1 := { fx with delBds := fx.delBds ++ [b.id] }
  let coll := breakdownsOf d0.breakdowns b.shopping_item_id
  let remaining := coll.filter (fun b2 => b2.id != b.id)
  if remaining.isEmpty then
    { fx1 with delItems := fx1.delItems ++ [b.shopping_item_id] }
  else
    { fx1 with dispUpd := fx1.dispUpd ++
        [(b.shopping_item_id, calculateConsolidatedDisplay (coll.map (fun b2 => b2.quantity)))] }

/-- The last display write for an item, if any (later writes win at commit). -/
def lastDisp (upd : List (ℕ × String)) (itemId : ℕ) : Option String :=
  (upd.filter (fun p => p.1 == itemId)).getLast?.map (fun p => p.2)

/-- The service's `remove_recipe_from_shopping_list`: find the user's list and
one association row; collect every breakdown of this recipe owned by an item
of the list; run the removal loop against the frozen snapshot; delete the
association row; commit all pending deletes, the delete-orphan cascade of
deleted items, and the display writes. -/
def removeRecipeFromShoppingList (d : DB) (uid rid : ℕ) : Except String DB :=
  let dl := getOrCreateShoppingList d uid
  let d0 := dl.1
  let sl := dl.2
  match d0.assocs.find? (fun a => a.shopping_list_id == sl.id && a.recipe_id == rid) with
  | none => .error "Recipe not found in shopping list"
  | some a =>
    let bds := d0.breakdowns.filter (fun b =>
      b.recipe_id == rid && d0.items.any (fun it =>
        it.id == b.shopping_item_id && it.shopping_list_id == sl.id))
    let fx := bds.foldl (removeStep d0) ⟨[], [], []⟩
    let items1 := d0.items.map (fun it =>
      match lastDisp fx.dispUpd it.id with
      | some s => { it with consolidated_display := s }
      | none => it)
    .ok { d0 with
          items := items1.filter (fun it => !fx.delItems.contains it.id)
          breakdowns := d0.breakdowns.filter (fun b =>
            !fx.delBds.contains b.id && !fx.delItems.contains b.shopping_item_id)
          assocs := d0.assocs.filter (fun a2 => a2.id != a.id) }

/-- The service's `update_item_status`: find the item by id joined to a list
of the calling user; set its checked flag and commit. -/
def updateItemStatus (d : DB) (uid itemId : ℕ) (isChecked : Bool) : Except String DB :=
  match d.items.find? (fun it =>
      it.id == itemId && d.lists.any (fun l =>
        l.id == it.shopping_list_id && l.user_id == uid)) with
  | none => .error "Shopping list item not found for user"
  | some _ =>
    .ok { d with items := d.items.map (fun it =>
            if it.id == itemId then { it with is_checked := isChecked } else it) }

/-- Unwrap a successful service call; scenario theorems always pair this with
a proof that the call did succeed. -/
def runOk (r : Except String DB) : DB :=
  match r with
  | .ok d => d
  | .error _ => ⟨[], [], [], [], [], 0⟩

/-- Scenario: a catalogue with one recipe `Bread` (id 1) contributing the
single ingredient flour, amount `2`, unit `cups`; user 7; empty list state. -/
def dupDb0 : DB :=
  ⟨[⟨1, "Bread", [⟨50, "flour", "2", some "cups", "baking"⟩]⟩], [], [], [], [], 1⟩

/-- State after adding recipe 1 once. -/
def dupDb1 : DB := runOk (addRecipeToShoppingList dupDb0 7 1)

/-- State after adding recipe 1 a second time. -/
def dupDb2 : DB := runOk (addRecipeToShoppingList dupDb1 7 1)

/-- State after one `remove_recipe` call for recipe 1. -/
def dupDb3 : DB := runOk (removeRecipeFromShoppingList dupDb2 7 1)

/-- State after a second `remove_recipe` call for recipe 1. -/
def dupDb4 : DB := runOk (removeRecipeFromShoppingList dupDb3 7 1)

/-- Scenario for shared-ingredient removal: recipe `R1` (flour `2 cups`) and
recipe `R2` (flour `1 cups`), same ingredient name and category. -/
def shrDb0 : DB :=
  ⟨[⟨1, "R1", [⟨51, "flour", "2", some "cups", "baking"⟩]⟩,
    ⟨2, "R2", [⟨52, "flour", "1", some "cups", "baking"⟩]⟩], [], [], [], [], 1⟩

/-- State after adding R1. -/
def shrDb1 : DB := runOk (addRecipeToShoppingList shrDb0 7 1)

/-- State after adding R1 then R2. -/
def shrDb2 : DB := runOk (addRecipeToShoppingList shrDb1 7 2)

/-- State after then removing R1. -/
def shrDb3 : DB := runOk (removeRecipeFromShoppingList shrDb2 7 1)

/-- State after then removing R2 as well. -/
def shrDb4 : DB := runOk (removeRecipeFromShoppingList shrDb3 7 2)

/-- Scenario for the N/A-unit sentinel: recipe `Omelette` contributing the
ingredient egg with amount `2` and unit `N/A`, added twice. -/
def naDb0 : DB :=
  ⟨[⟨1, "Omelette", [⟨53, "egg", "2", some "N/A", "dairy"⟩]⟩], [], [], [], [], 1⟩

/-- State after adding the Omelette recipe once (item created). -/
def naDb1 : DB := runOk (addRecipeToShoppingList naDb0 7 1)

/-- State after adding it a second time (`_add_to_existing_item` path). -/
def naDb2 : DB := runOk (addRecipeToShoppingList naDb1 7 1)

/-- The unit remainder the summation loop computes for a quantity string:
the whitespace tokens after the first, joined by single spaces (`none` when
the string has no tokens at all and is silently skipped by the loop). -/
def candUnit (q : String) : Option String :=
  match pySplitWs q with
  | [] => none
  | _ :: rest => some (String.intercalate " " rest)

/-- The numeric value the summation loop parses from a quantity string's
leading token. -/
def candVal (q : String) : Option FloatVal :=
  match pySplitWs q with
  | [] => none
  | tok :: _ => parseNumTok tok

/-- Whether a quantity string is a summation candidate: not excluded as empty
or descriptive, and with at least one whitespace token. -/
def isCand (q : String) : Bool :=
  !excludedCalc q && !(pySplitWs q).isEmpty

/-- The numeric values of a list of quantity strings, when every one of them
parses. -/
def candVals : List String → Option (List FloatVal)
  | [] => some []
  | q :: rest =>
    match candVal q, candVals rest with
    | some v, some vs => some (v :: vs)
    | _, _ => none

/-- The double-precision sum of a list of parsed values, accumulated left to
right from zero exactly as the summation loop does. -/
def floatSum (vs : List FloatVal) : FloatVal :=
  vs.foldl addD (.finite pnZero)

/-- Whether a double summation ended finite on a whole number (Python
`total == int(total)` evaluated without raising). -/
def pnWholeF : FloatVal → Bool
  | .finite v => pnWhole v
  | _ => false

/-- Python `int(total)` on a finite double; zero on the non-finite values,
where the source would raise instead (no theorem below reaches that case). -/
def pnTruncF : FloatVal → ℤ
  | .finite v => pnTrunc v
  | _ => 0

/-- Whether a string is all-ASCII: the domain on which the tokenizer and the
float parser of this model provably agree with Python's (see the header). -/
def asciiOnly (q : String) : Bool :=
  q.data.all (fun c => c.toNat ≤ 127)

/-- Scenario for the checked-flag update: a list of user 7 holding two items,
one of them with a breakdown row. -/
def updDb : DB :=
  ⟨[], [⟨1, 7, "My Shopping List", true⟩],
   [⟨2, 1, "flour", "baking", "3 cups", false⟩, ⟨3, 1, "egg", "dairy", "2", false⟩],
   [⟨4, 2, 9, 50, "Bread", "3 cups"⟩], [], 5⟩

/-- State after checking off the flour item. -/
def updDb2 : DB := runOk (updateItemStatus updDb 7 2 true)

/-- C2.  In `_add_to_existing_item` the new breakdown row's quantity is the raw
f-string `f"{amount} {unit or ''}".strip()`, not the section-4.1 formatted
display: with amount `2` and unit `N/A` the first add (new-item path) stores
the formatted `2`, but the second add (existing-item path) stores `2 N/A`,
which differs from `formatIngredientDisplay "2" (some "N/A") = "2"`. -/
theorem c2_existing_item_breakdown_quantity_unformatted :
    (addRecipeToShoppingList naDb1 7 1).toOption = some naDb2
    ∧ naDb2.breakdowns.map (fun b => b.quantity) = ["2", "2 N/A"]
    ∧ formatIngredientDisplay "2" (some "N/A") = "2"
    ∧ rawQuantityDisplay "2" (some "N/A") = "2 N/A"
    ∧ rawQuantityDisplay "2" (some "N/A") ≠ formatIngredientDisplay "2" (some "N/A") := by
  decide

/-- C3.  A non-whole total is rendered by
`f"{total:.2f} {unit}".strip().rstrip('0').rstrip('.')`: the unit is appended
before the strips, so with a non-empty unit the trailing zeros are never
stripped.  `[\"1.25 cups\", \"1.25 cups\"]` sums to 2.5 and is displayed as
`2.50 cups`, not the claimed `2.5 cups`; the strip only takes effect for an
empty unit, as in `[\"0.5\", \"0.75\"]`. -/
theorem c3_nonwhole_total_keeps_trailing_zeros :
    calculateConsolidatedDisplay ["1.25 cups", "1.25 cups"] = "2.50 cups"
    ∧ calculateConsolidatedDisplay ["1.25 cups", "1.25 cups"] ≠ "2.5 cups"
    ∧ calculateConsolidatedDisplay ["0.5", "0.75"] = "1.25" := by
  decide

/-- C4.  The descriptive-term list of `_calculate_consolidated_display` omits
`squeeze` (which `_format_ingredient_display` includes), so
`[\"1 squeeze\", \"1 squeeze\"]` is summed numerically to `2 squeeze` instead
of falling back to the claimed `1 squeeze + 1 squeeze`. -/
theorem c4_squeeze_not_excluded_from_summation :
    calculateConsolidatedDisplay ["1 squeeze", "1 squeeze"] = "2 squeeze"
    ∧ calculateConsolidatedDisplay ["1 squeeze", "1 squeeze"] ≠ "1 squeeze + 1 squeeze"
    ∧ descWordsCalc.contains "squeeze" = false
    ∧ descWordsFmt.contains "squeeze" = true
    ∧ calculateConsolidatedDisplay ["1 splash", "1 splash"] = "1 splash + 1 splash" := by
  decide

/-- C5.  Removing a recipe that was added twice deletes both breakdown rows,
but the item they belonged to is not deleted: when the second breakdown is
processed, the stale lazy-loaded collection still contains the first
pending-deleted row, so `remaining_breakdowns` is non-empty and the item
survives with zero breakdown rows and a display recomputed over the stale full
collection (`4 cups`). -/
theorem c5_remove_leaves_orphan_item :
    (removeRecipeFromShoppingList dupDb2 7 1).toOption = some dupDb3
    ∧ dupDb2.items.map (fun it => it.id) = [3]
    ∧ (∀ b ∈ dupDb2.breakdowns, b.recipe_id = 1 ∧ b.shopping_item_id = 3)
    ∧ dupDb2.breakdowns.length = 2
    ∧ dupDb3.breakdowns = []
    ∧ dupDb3.items.map (fun it => (it.id, it.consolidated_display)) = [(3, "4 cups")] := by
  decide

/-- C6.  Shared-ingredient scenario: after adding R1 (`2 cups`) and R2
(`1 cups`) the item's display is `2 cups`, not the claimed `3 cups` (the
pending second breakdown is invisible to the recalculation); after removing R1
the display becomes `3 cups`, not the claimed `1 cups` (the pending-deleted
breakdown is still visible), while exactly one breakdown (R2's) indeed
remains; removing R2 afterward does delete the item entirely. -/
theorem c6_shared_ingredient_displays_diverge :
    shrDb2.items.map (fun it => it.consolidated_display) = ["2 cups"]
    ∧ shrDb2.items.map (fun it => it.consolidated_display) ≠ ["3 cups"]
    ∧ shrDb2.breakdowns.length = 2
    ∧ shrDb3.items.map (fun it => it.consolidated_display) = ["3 cups"]
    ∧ shrDb3.items.map (fun it => it.consolidated_display) ≠ ["1 cups"]
    ∧ shrDb3.breakdowns.map (fun b => (b.recipe_id, b.quantity)) = [(2, "1 cups")]
    ∧ shrDb4.items = [] ∧ shrDb4.breakdowns = [] := by
  decide

/-- C7.  Adding the same recipe twice is accepted and creates two association
rows and two breakdown rows, but the item's display after the second add is
`2 cups`, not the claimed `4 cups`: the display is recomputed from the
lazy-loaded collection, which cannot contain the still-pending new breakdown
row in the `autoflush=False` session. -/
theorem c7_duplicate_add_rows_but_stale_display :
    (addRecipeToShoppingList dupDb0 7 1).toOption = some dupDb1
    ∧ (addRecipeToShoppingList dupDb1 7 1).toOption = some dupDb2
    ∧ dupDb2.assocs.map (fun a => (a.shopping_list_id, a.recipe_id)) = [(1, 1), (1, 1)]
    ∧ dupDb2.breakdowns.map (fun b => b.quantity) = ["2 cups", "2 cups"]
    ∧ dupDb2.items.map (fun it => it.consolidated_display) = ["2 cups"]
    ∧ dupDb2.items.map (fun it => it.consolidated_display) ≠ ["4 cups"] := by
  decide

/-- C10.  One `remove_recipe` call deletes exactly one association row even
when the recipe was added twice: after two adds and one remove, one
association row for (list 1, recipe 1) remains while the recipe has zero
breakdown rows; a second remove succeeds, deletes no breakdown row and no
item, and removes the last association row. -/
theorem c10_remove_deletes_one_association :
    dupDb2.assocs.length = 2
    ∧ dupDb3.assocs.map (fun a => (a.shopping_list_id, a.recipe_id)) = [(1, 1)]
    ∧ dupDb3.breakdowns.filter (fun b => b.recipe_id == 1) = []
    ∧ (removeRecipeFromShoppingList dupDb3 7 1).toOption = some dupDb4
    ∧ dupDb4.breakdowns = dupDb3.breakdowns
    ∧ dupDb4.items = dupDb3.items
    ∧ dupDb4.assocs = [] := by
  decide

/-- A step of the summation loop on an excluded (empty or descriptive)
quantity clears `has_numeric` and changes nothing else. -/
theorem consolStep_excluded (st : CState) (q : String) (h : excludedCalc q = true) :
    consolStep st q = { st with hasNum := false } := by
  simp [consolStep, h]

/-- A step of the summation loop on a candidate seen while no common unit is
set records the candidate's unit and adds its value. -/
theorem consolStep_first (t : FloatVal) (q u : String) (v : FloatVal)
    (hex : excludedCalc q = false) (hu : candUnit q = some u) (hv : candVal q = some v) :
    consolStep ⟨t, true, none⟩ q = ⟨addD t v, true, some u⟩ := by
  rcases hsplit : pySplitWs q with _ | ⟨tok, rest⟩
  · simp [candUnit, hsplit] at hu
  · have hu2 : String.intercalate " " rest = u := by
      simpa [candUnit, hsplit] using hu
    have hv2 : parseNumTok tok = some v := by
      simpa [candVal, hsplit] using hv
    simp [consolStep, hex, hsplit, hu2, consolNum, hv2]

/-- A step of the summation loop on a candidate whose unit equals the common
unit adds its value. -/
theorem consolStep_cons (t : FloatVal) (q u : String) (v : FloatVal)
    (hex : excludedCalc q = false) (hu : candUnit q = some u) (hv : candVal q = some v) :
    consolStep ⟨t, true, some u⟩ q = ⟨addD t v, true, some u⟩ := by
  rcases hsplit : pySplitWs q with _ | ⟨tok, rest⟩
  · simp [candUnit, hsplit] at hu
  · have hu2 : String.intercalate " " rest = u := by
      simpa [candUnit, hsplit] using hu
    have hv2 : parseNumTok tok = some v := by
      simpa [candVal, hsplit] using hv
    simp [consolStep, hex, hsplit, hu2, consolNum, hv2]

/-- Running the summation loop over quantities that are all candidates with
the common unit `u` accumulates exactly the parsed values. -/
theorem consol_run (qs : List String) : ∀ (t : FloatVal) (u : String) (vs : List FloatVal),
    (∀ q ∈ qs, excludedCalc q = false) → (∀ q ∈ qs, candUnit q = some u) →
    candVals qs = some vs →
    qs.foldl consolStep ⟨t, true, some u⟩ = ⟨vs.foldl addD t, true, some u⟩ := by
  induction qs with
  | nil =>
    intro t u vs _ _ hv
    simp only [candVals, Option.some.injEq] at hv
    subst hv
    rfl
  | cons q qs ih =>
    intro t u vs hex hu hv
    rcases hmq : candVal q with _ | v
    · simp [candVals, hmq] at hv
    · rcases hrest : candVals qs with _ | vs1
      · simp [candVals, hmq, hrest] at hv
      · have hvs : vs = v :: vs1 := by
          simp [candVals, hmq, hrest] at hv
          exact hv.symm
        subst hvs
        have hstep : consolStep ⟨t, true, some u⟩ q = ⟨addD t v, true, some u⟩ :=
          consolStep_cons t q u v (hex q (by simp)) (hu q (by simp)) hmq
        calc (q :: qs).foldl consolStep ⟨t, true, some u⟩
            = qs.foldl consolStep (consolStep ⟨t, true, some u⟩ q) := rfl
          _ = qs.foldl consolStep ⟨addD t v, true, some u⟩ := by rw [hstep]
          _ = ⟨vs1.foldl addD (addD t v), true, some u⟩ :=
              ih (addD t v) u vs1 (fun p hp => hex p (by simp [hp]))
                (fun p hp => hu p (by simp [hp])) hrest
          _ = ⟨(v :: vs1).foldl addD t, true, some u⟩ := rfl

/-- C1 (amended).  For at least two all-ASCII breakdown quantity strings, none
empty and none containing a descriptive term of the calculator's exclusion
list, each splitting on whitespace into a leading token that `float` parses
(a plain number or a two-part fraction `a/b` with nonzero `b`, parsed as `a`
divided by `b`) followed by remaining tokens joining to one identical unit
remainder, if the left-to-right double-precision sum of the parsed values is
finite and a whole number, the calculator returns that sum rendered as an
integer with no decimal point followed by the shared unit. -/
theorem c1_consolidation_sums_amended (qs : List String) (u : String) (vs : List FloatVal)
    (hlen : 2 ≤ qs.length)
    (hascii : ∀ q ∈ qs, asciiOnly q = true)
    (hex : ∀ q ∈ qs, excludedCalc q = false)
    (hu : ∀ q ∈ qs, candUnit q = some u)
    (hv : candVals qs = some vs)
    (hwhole : pnWholeF (floatSum vs) = true) :
    calculateConsolidatedDisplay qs =
      pyStrip (toString (pnTruncF (floatSum vs)) ++ " " ++ u) := by
  rcases qs with _ | ⟨q1, qs1⟩
  · simp at hlen
  rcases hmq : candVal q1 with _ | v1
  · simp [candVals, hmq] at hv
  rcases hrest : candVals qs1 with _ | vs1
  · simp [candVals, hmq, hrest] at hv
  have hvs : vs = v1 :: vs1 := by
    simp [candVals, hmq, hrest] at hv
    exact hv.symm
  subst hvs
  have hne : (q1 :: qs1).length ≠ 1 := by
    simp only [List.length_cons]
    simp only [List.length_cons] at hlen
    omega
  have hstep : consolStep ⟨.finite pnZero, true, none⟩ q1 =
      ⟨addD (.finite pnZero) v1, true, some u⟩ :=
    consolStep_first (.finite pnZero) q1 u v1 (hex q1 (by simp)) (hu q1 (by simp)) hmq
  have hfold : (q1 :: qs1).foldl consolStep ⟨.finite pnZero, true, none⟩ =
      ⟨floatSum (v1 :: vs1), true, some u⟩ := by
    calc (q1 :: qs1).foldl consolStep ⟨.finite pnZero, true, none⟩
        = qs1.foldl consolStep (consolStep ⟨.finite pnZero, true, none⟩ q1) := rfl
      _ = qs1.foldl consolStep ⟨addD (.finite pnZero) v1, true, some u⟩ := by rw [hstep]
      _ = ⟨vs1.foldl addD (addD (.finite pnZero) v1), true, some u⟩ :=
          consol_run qs1 (addD (.finite pnZero) v1) u vs1 (fun p hp => hex p (by simp [hp]))
            (fun p hp => hu p (by simp [hp])) hrest
      _ = ⟨floatSum (v1 :: vs1), true, some u⟩ := rfl
  have hgt : 1 < (q1 :: qs1).length := by
    simp only [List.length_cons] at hlen ⊢
    omega
  rw [calculateConsolidatedDisplay, if_neg hne, hfold, consolFinish]
  rcases hfs : floatSum (v1 :: vs1) with w | _ | _ | _
  · rw [hfs] at hwhole
    rw [show pnWholeF (.finite w) = pnWhole w from rfl] at hwhole
    rw [if_pos ⟨rfl, hgt⟩]
    simp [hwhole, unitString, pnTruncF]
  · rw [hfs] at hwhole
    exact absurd hwhole (by simp [pnWholeF])
  · rw [hfs] at hwhole
    exact absurd hwhole (by simp [pnWholeF])
  · rw [hfs] at hwhole
    exact absurd hwhole (by simp [pnWholeF])

/-- Witness for C1: the two spec examples, obtained from the amended theorem
at concrete inputs (the parsed values are the doubles nearest 2, 1 and one
half, written as exact dyadic rationals). -/
theorem c1_sum_examples_witness :
    calculateConsolidatedDisplay ["2 cups", "1 cups"] = "3 cups"
    ∧ calculateConsolidatedDisplay ["1/2 cup", "1/2 cup"] = "1 cup" := by
  constructor
  · exact (c1_consolidation_sums_amended ["2 cups", "1 cups"] "cups"
      [.finite ⟨2 ^ 52, 2 ^ 51⟩, .finite ⟨2 ^ 52, 2 ^ 52⟩]
      (by decide) (by decide) (by decide) (by decide) (by decide) (by decide)).trans (by decide)
  · exact (c1_consolidation_sums_amended ["1/2 cup", "1/2 cup"] "cup"
      [.finite ⟨2 ^ 52, 2 ^ 53⟩, .finite ⟨2 ^ 52, 2 ^ 53⟩]
      (by decide) (by decide) (by decide) (by decide) (by decide) (by decide)).trans (by decide)

/-- C1 (counterexample).  The quantity strings `1 pinches` split into the
numeric token `1` and the identical unit remainder `pinches`, yet the
calculator does not return the claimed sum `2 pinches`: the unit contains the
descriptive term `pinch`, so the whole set falls back to the joined form. -/
theorem c1_descriptive_unit_counterexample :
    calculateConsolidatedDisplay ["1 pinches", "1 pinches"] = "1 pinches + 1 pinches"
    ∧ calculateConsolidatedDisplay ["1 pinches", "1 pinches"] ≠ "2 pinches"
    ∧ pySplitWs "1 pinches" = ["1", "pinches"]
    ∧ (parseNumTok "1").isSome = true := by
  decide

/-- A numeric-token parse never changes the common unit. -/
theorem consolNum_commonUnit (st : CState) (tok : String) :
    (consolNum st tok).commonUnit = st.commonUnit := by
  cases hp : parseNumTok tok <;> simp [consolNum, hp]

/-- A numeric-token parse never turns `has_numeric` back on. -/
theorem consolNum_hasNum_false (st : CState) (tok : String) (h : st.hasNum = false) :
    (consolNum st tok).hasNum = false := by
  cases hp : parseNumTok tok <;> simp [consolNum, hp, h]

/-- Once `has_numeric` is cleared, no later loop iteration restores it. -/
theorem consolStep_hasNum_false (st : CState) (q : String) (h : st.hasNum = false) :
    (consolStep st q).hasNum = false := by
  cases hex : excludedCalc q
  · rcases hsplit : pySplitWs q with _ | ⟨tok, rest⟩
    · simp [consolStep, hex, hsplit, h]
    · rcases hcu : st.commonUnit with _ | u
      · simp only [consolStep, hex, hsplit, hcu]
        exact consolNum_hasNum_false _ tok h
      · by_cases hbe : u == String.intercalate " " rest
        · simp only [consolStep, hex, hsplit, hcu, hbe, if_true]
          exact consolNum_hasNum_false _ tok h
        · simp [consolStep, hex, hsplit, hcu, hbe]
  · simp [consolStep, hex]

/-- Once `has_numeric` is cleared, it stays cleared for the rest of the loop. -/
theorem foldl_hasNum_false (qs : List String) : ∀ st : CState, st.hasNum = false →
    (qs.foldl consolStep st).hasNum = false := by
  induction qs with
  | nil => intro st h; exact h
  | cons q qs ih => intro st h; exact ih (consolStep st q) (consolStep_hasNum_false st q h)

/-- Processing an excluded quantity, or one whose leading token fails to
parse, clears `has_numeric` regardless of the incoming state. -/
theorem consolStep_bad (st : CState) (q : String)
    (h : excludedCalc q = true ∨ ∃ tok rest, pySplitWs q = tok :: rest ∧ parseNumTok tok = none) :
    (consolStep st q).hasNum = false := by
  rcases h with hex | ⟨tok, rest, hsplit, hp⟩
  · simp [consolStep, hex]
  · cases hex : excludedCalc q
    · rcases hcu : st.commonUnit with _ | u
      · simp [consolStep, hex, hsplit, hcu, consolNum, hp]
      · by_cases hbe : u == String.intercalate " " rest
        · simp [consolStep, hex, hsplit, hcu, hbe, consolNum, hp]
        · simp [consolStep, hex, hsplit, hcu, hbe]
    · simp [consolStep, hex]

/-- An excluded or unparsable quantity anywhere in the list makes the whole
loop end with `has_numeric` cleared. -/
theorem foldl_bad (qs : List String) : ∀ (st : CState) (q : String), q ∈ qs →
    (excludedCalc q = true ∨ ∃ tok rest, pySplitWs q = tok :: rest ∧ parseNumTok tok = none) →
    (qs.foldl consolStep st).hasNum = false := by
  induction qs with
  | nil => intro st q hq; exact absurd hq (List.not_mem_nil q)
  | cons a l ih =>
    intro st q hq hbad
    rcases List.mem_cons.mp hq with rfl | hql
    · exact foldl_hasNum_false l (consolStep st q) (consolStep_bad st q hbad)
    · exact ih (consolStep st a) q hql hbad

/-- A step of the loop never changes an already-set common unit. -/
theorem consolStep_commonUnit_some (st : CState) (q : String) (u : String)
    (h : st.commonUnit = some u) : (consolStep st q).commonUnit = some u := by
  cases hex : excludedCalc q
  · rcases hsplit : pySplitWs q with _ | ⟨tok, rest⟩
    · simp [consolStep, hex, hsplit, h]
    · by_cases hbe : u == String.intercalate " " rest
      · simp [consolStep, hex, hsplit, h, hbe, consolNum_commonUnit]
      · simp [consolStep, hex, hsplit, h, hbe]
  · simp [consolStep, hex, h]

/-- The rest of the loop never changes an already-set common unit. -/
theorem foldl_commonUnit_some (qs : List String) : ∀ (st : CState) (u : String),
    st.commonUnit = some u → (qs.foldl consolStep st).commonUnit = some u := by
  induction qs with
  | nil => intro st u h; exact h
  | cons a l ih =>
    intro st u h
    exact ih (consolStep st a) u (consolStep_commonUnit_some st a u h)

/-- If the loop ends with `has_numeric` still set, the final common unit
equals the unit remainder of every candidate in the list. -/
theorem foldl_true_unit (qs : List String) : ∀ st : CState,
    (qs.foldl consolStep st).hasNum = true →
    ∀ q ∈ qs, isCand q = true → (qs.foldl consolStep st).commonUnit = candUnit q := by
  induction qs with
  | nil => intro st _ q hq; exact absurd hq (List.not_mem_nil q)
  | cons a l ih =>
    intro st htrue q hq hcand
    rcases List.mem_cons.mp hq with rfl | hql
    · have hex : excludedCalc q = false := by
        cases hexv : excludedCalc q
        · rfl
        · simp [isCand, hexv] at hcand
      rcases hsplit : pySplitWs q with _ | ⟨tok, rest⟩
      · simp [isCand, hsplit] at hcand
      · have hstep : (consolStep st q).commonUnit = some (String.intercalate " " rest) := by
          rcases hcu : st.commonUnit with _ | u0
          · simp [consolStep, hex, hsplit, hcu, consolNum_commonUnit]
          · by_cases hbe : u0 == String.intercalate " " rest
            · simp [consolStep, hex, hsplit, hcu, hbe, consolNum_commonUnit, eq_of_beq hbe]
            · exfalso
              have hfold : (consolStep st q).hasNum = false := by
                simp [consolStep, hex, hsplit, hcu, hbe]
              have hall := foldl_hasNum_false l (consolStep st q) hfold
              rw [List.foldl_cons] at htrue
              rw [htrue] at hall
              exact absurd hall (by simp)
        rw [List.foldl_cons] at htrue ⊢
        rw [foldl_commonUnit_some l (consolStep st q) _ hstep]
        simp [candUnit, hsplit]
    · rw [List.foldl_cons] at htrue ⊢
      exact ih (consolStep st a) htrue q hql hcand

/-- C8 (amended).  For two or more breakdowns on which numeric summation is
not applicable — some entry is empty or descriptive per the calculator's
five-term exclusion list, some all-ASCII entry's leading token fails to parse
under `float`'s grammar (a zero-denominator fraction included), or two
all-ASCII summation candidates have different unit remainders — the
calculator returns every quantity string joined with a plus sign, in
breakdown order. -/
theorem c8_consolidation_fallback_join (qs : List String)
    (hlen : 2 ≤ qs.length)
    (hbad :
      (∃ q ∈ qs, excludedCalc q = true)
      ∨ (∃ q ∈ qs, asciiOnly q = true
          ∧ ∃ tok rest, pySplitWs q = tok :: rest ∧ parseNumTok tok = none)
      ∨ (∃ q ∈ qs, ∃ p ∈ qs, asciiOnly q = true ∧ asciiOnly p = true
          ∧ isCand q = true ∧ isCand p = true ∧ candUnit q ≠ candUnit p)) :
    calculateConsolidatedDisplay qs = String.intercalate " + " qs := by
  have hne : qs.length ≠ 1 := by omega
  have hfalse : (qs.foldl consolStep ⟨.finite pnZero, true, none⟩).hasNum = false := by
    rcases hbad with ⟨q, hq, hexq⟩ | ⟨q, hq, _, tok, rest, hs, hp⟩ |
      ⟨q, hq, p, hp, _, _, hcq, hcp, hqp⟩
    · exact foldl_bad qs ⟨.finite pnZero, true, none⟩ q hq (Or.inl hexq)
    · exact foldl_bad qs ⟨.finite pnZero, true, none⟩ q hq (Or.inr ⟨tok, rest, hs, hp⟩)
    · cases hh : (qs.foldl consolStep ⟨.finite pnZero, true, none⟩).hasNum
      · rfl
      · exact absurd ((foldl_true_unit qs ⟨.finite pnZero, true, none⟩ hh q hq hcq).symm.trans
          (foldl_true_unit qs ⟨.finite pnZero, true, none⟩ hh p hp hcp)) hqp
  rw [calculateConsolidatedDisplay, if_neg hne, consolFinish]
  rw [if_neg (by simp [hfalse])]

/-- Witness for C8: the spec's unit-mismatch and descriptive-amount examples,
obtained from the fallback theorem at concrete inputs. -/
theorem c8_fallback_examples_witness :
    calculateConsolidatedDisplay ["2 cups", "3 tbsp"] = "2 cups + 3 tbsp"
    ∧ calculateConsolidatedDisplay ["to taste", "1 pinch"] = "to taste + 1 pinch" := by
  constructor
  · exact (c8_consolidation_fallback_join ["2 cups", "3 tbsp"] (by decide)
      (Or.inr (Or.inr ⟨"2 cups", by decide, "3 tbsp", by decide, by decide, by decide,
        by decide, by decide, by decide⟩))).trans (by decide)
  · exact (c8_consolidation_fallback_join ["to taste", "1 pinch"] (by decide)
      (Or.inl ⟨"to taste", by decide, by decide⟩)).trans (by decide)

/-- C8 (counterexample).  Per the claim's own reading of `descriptive` — the
six 4.1 formatter terms, `squeeze` included — the set
`["1 squeeze", "1 squeeze"]` consists of descriptive entries, yet the
calculator does not fall back to the join: its own exclusion list omits
`squeeze`, so the set is summed to `2 squeeze`. -/
theorem c8_squeeze_fallback_counterexample :
    calculateConsolidatedDisplay ["1 squeeze", "1 squeeze"] ≠ "1 squeeze + 1 squeeze"
    ∧ calculateConsolidatedDisplay ["1 squeeze", "1 squeeze"] = "2 squeeze"
    ∧ descWordsFmt.contains "squeeze" = true
    ∧ strIn "squeeze" (strLower "1 squeeze") = true
    ∧ excludedCalc "1 squeeze" = false := by
  decide

/-- C9.  A successful `update_item_status` call only flips the checked flag of
the addressed item, which must belong to a list of the calling user: every
other field of that item, every other item, and the breakdown, association,
list and recipe tables are untouched. -/
theorem c9_update_item_status_frame (d : DB) (uid itemId : ℕ) (c : Bool) (d2 : DB)
    (h : updateItemStatus d uid itemId c = .ok d2) :
    d2.items = d.items.map (fun it =>
        if it.id == itemId then { it with is_checked := c } else it)
    ∧ d2.breakdowns = d.breakdowns
    ∧ d2.assocs = d.assocs
    ∧ d2.lists = d.lists
    ∧ d2.recipes = d.recipes
    ∧ ∃ it ∈ d.items, it.id = itemId
        ∧ ∃ l ∈ d.lists, l.id = it.shopping_list_id ∧ l.user_id = uid := by
  rcases hfind : d.items.find? (fun it =>
      it.id == itemId && d.lists.any (fun l =>
        l.id == it.shopping_list_id && l.user_id == uid)) with _ | it
  · rw [updateItemStatus, hfind] at h
    exact absurd h (by simp)
  · rw [updateItemStatus, hfind] at h
    have hd2 : d2 = { d with items := d.items.map (fun it =>
        if it.id == itemId then { it with is_checked := c } else it) } :=
      (Except.ok.inj h).symm
    subst hd2
    refine ⟨rfl, rfl, rfl, rfl, rfl, it, List.mem_of_find?_eq_some hfind, ?_⟩
    have hpred := List.find?_some hfind
    simp only [Bool.and_eq_true, beq_iff_eq, List.any_eq_true] at hpred
    exact ⟨hpred.1, hpred.2.imp (fun l hl => ⟨hl.1, hl.2.1, hl.2.2⟩)⟩

/-- Witness for C9: checking off the flour item of the concrete scenario,
through the frame theorem. -/
theorem c9_update_item_status_witness :
    updDb2.breakdowns = updDb.breakdowns
    ∧ updDb2.assocs = updDb.assocs
    ∧ updDb2.items = updDb.items.map (fun it =>
        if it.id == 2 then { it with is_checked := true } else it) := by
  have h := c9_update_item_status_frame updDb 7 2 true updDb2 rfl
  exact ⟨h.2.1, h.2.2.1, h.1⟩
